import Mathlib

/-!
Verification of `create_grad_certificates.py` (SBA graduation-certificate
generator) against its specification.

The script is a GIMP python-fu plug-in.  Its pure parts (name-list
formatting, centering arithmetic, filename sanitization, CSV-row to Team
conversion) are embedded as Lean functions; the imperative parts
(signature toggling, certificate export, the per-team orchestration loop)
are embedded as trace-producing state-passing functions over an explicit
event type, with the GIMP PDB modelled as the event vocabulary and the
template's layer set given as the list of layer names present.
Machine-level failure modes of the Python source (`ValueError` from
`list.remove`, `IndexError` from out-of-range indexing) are modelled with
`Option`.
-/

/-- Team record, embedded from the `Team` class of the source
(fields `name`, `players`, `mentors`, `shared_responsibility`,
`mult_coaches`, `mult_managers`). -/
structure Team where
  name : String
  players : List String
  mentors : List String
  shared_responsibility : Bool
  mult_coaches : Bool
  mult_managers : Bool
deriving DecidableEq

/-- Python `list.remove(x)`: drop the first occurrence of `x`; `none`
models the `ValueError` raised when `x` is absent. -/
def pyRemove (x : String) : List String → Option (List String)
  | [] => none
  | y :: ys => if y = x then some ys else (pyRemove x ys).map (y :: ·)

/-- Python `s[:-2]`: drop the last two characters (fewer when the string
is shorter than two characters). -/
def pyDropLast2 (s : String) : String :=
  String.mk (s.data.take (s.data.length - 2))

/-- The local list `ps` of `get_teammates` after lines 137-139 of the
source: a copy of `players`, with the first occurrence of the excluded
player removed when an exclusion is given. -/
def remainingPlayers (players : List String) (player : Option String) :
    Option (List String) :=
  match player with
  | none => some players
  | some p => pyRemove p players

/-- `get_teammates(players, player)` from the source: copy the list,
remove the excluded player when given, read the last element (`ps[-1]`),
pop it, concatenate every earlier element followed by `", "`, strip the
trailing two characters and append `" and "`, the last element and a
period.  `none` models the crash on an absent exclusion (`ValueError`)
or an empty remaining list (`IndexError` on `ps[-1]`). -/
def get_teammates (players : List String) (player : Option String) :
    Option String :=
  match remainingPlayers players player with
  | none => none
  | some ps0 =>
    match ps0.getLast? with
    | none => none
    | some last =>
      let ps := ps0.dropLast
      let val := ps.foldl (fun acc p => acc ++ p ++ ", ") ""
      some (pyDropLast2 val ++ " and " ++ last ++ ".")

/-- Comma-join of a list of names, phrasing the spec's "joined with
\", \" between all but the last two entries". -/
def commaJoin : List String → String
  | [] => ""
  | [x] => x
  | x :: y :: rest => x ++ ", " ++ commaJoin (y :: rest)

/-- The sentence format the spec prescribes for the remaining names:
all names but the last joined with `", "`, then `" and "`, the final
name and a period. -/
def specTeammateSentence (names : List String) : String :=
  commaJoin names.dropLast ++ " and " ++ (names.getLast?.getD "") ++ "."

lemma foldl_comma_peel (l : List String) (acc : String) :
    l.foldl (fun a p => a ++ p ++ ", ") acc =
      acc ++ l.foldl (fun a p => a ++ p ++ ", ") "" := by
  induction l generalizing acc with
  | nil => simp
  | cons x xs ih =>
      simp only [List.foldl_cons]
      rw [ih (acc ++ x ++ ", "), ih ("" ++ x ++ ", ")]
      simp [String.append_assoc]

lemma foldl_comma_eq_commaJoin (l : List String) (h : l ≠ []) :
    l.foldl (fun a p => a ++ p ++ ", ") "" = commaJoin l ++ ", " := by
  induction l with
  | nil => simp at h
  | cons x xs ih =>
      cases xs with
      | nil => simp [commaJoin]
      | cons y ys =>
          rw [List.foldl_cons, foldl_comma_peel]
          rw [ih (by simp)]
          simp [commaJoin, String.append_assoc]

lemma pyDropLast2_append_comma (s : String) :
    pyDropLast2 (s ++ ", ") = s := by
  cases s with
  | mk data =>
      show pyDropLast2 (String.mk (data ++ [',', ' '])) = String.mk data
      simp [pyDropLast2, List.take_left]

/-- C5: for every players list whose remaining part after removing the
excluded player has at least two names, `get_teammates` returns those
names in order, joined with ", " between all but the last two and
" and " before the final name, terminated with a period. -/
theorem claim_C5_teammates_format (players : List String)
    (player : Option String) (ps0 : List String)
    (hrem : remainingPlayers players player = some ps0)
    (hlen : 2 ≤ ps0.length) :
    get_teammates players player = some (specTeammateSentence ps0) := by
  have hne : ps0 ≠ [] := by
    intro h
    subst h
    simp at hlen
  obtain ⟨last, hlast⟩ : ∃ l, ps0.getLast? = some l :=
    ⟨ps0.getLast hne, List.getLast?_eq_getLast ps0 hne⟩
  have hdne : ps0.dropLast ≠ [] := by
    intro h
    have := congrArg List.length h
    simp only [List.length_dropLast, List.length_nil] at this
    omega
  simp only [get_teammates, hrem, Option.some_bind, hlast]
  rw [foldl_comma_eq_commaJoin _ hdne, pyDropLast2_append_comma]
  simp [specTeammateSentence, hlast]

/-- C5 witness: concrete instances from the spec,
`formatTeammates(["A","B","C"], exclude=None)` and the rendered value. -/
theorem claim_C5_teammates_format_witness :
    get_teammates ["A", "B", "C"] none =
      some (specTeammateSentence ["A", "B", "C"]) ∧
    specTeammateSentence ["A", "B", "C"] = "A, B and C." :=
  ⟨claim_C5_teammates_format ["A", "B", "C"] none ["A", "B", "C"] rfl
    (by decide), by decide⟩

/-- C1 counterexample: with players ["A","B"] and exclusion "A" exactly
one name remains, and the source returns " and B.", not "B.". -/
theorem claim_C1_counterexample :
    get_teammates ["A", "B"] (some "A") = some " and B." ∧
    (" and B." : String) ≠ "B." := by
  refine ⟨by decide, by decide⟩

/-- C1 amended: when exactly one name `x` remains after removing the
excluded player, `get_teammates` returns `" and " ++ x ++ "."` — the
" and " separator is still emitted in front of the single name. -/
theorem claim_C1_single_name (players : List String)
    (player : Option String) (x : String)
    (hrem : remainingPlayers players player = some [x]) :
    get_teammates players player = some (" and " ++ x ++ ".") := by
  simp [get_teammates, hrem, pyDropLast2]

/-- C1 amended witness: the concrete instance ["A","B"] excluding "A". -/
theorem claim_C1_single_name_witness :
    remainingPlayers ["A", "B"] (some "A") = some ["B"] ∧
    get_teammates ["A", "B"] (some "A") = some (" and " ++ "B" ++ ".") :=
  ⟨by decide, claim_C1_single_name ["A", "B"] (some "A") "B" (by decide)⟩

/-- Read a Python list variable: a heap of list cells indexed by
references. -/
def heapRead (h : List (List String)) (r : Nat) : List String := h.getD r []

/-- Continuation of `get_teammates` after the removal step, on the heap
model: read `ps[-1]` from the cell, pop the cell in place, and build the
sentence from the cell's final value. -/
def get_teammates_st_rest (h : List (List String)) (psRef : Nat) :
    Option String × List (List String) :=
  match (heapRead h psRef).getLast? with
  | none => (none, h)
  | some last =>
    let h2 := h.set psRef (heapRead h psRef).dropLast
    let val := (heapRead h2 psRef).foldl (fun acc p => acc ++ p ++ ", ") ""
    (some (pyDropLast2 val ++ " and " ++ last ++ "."), h2)

/-- `get_teammates` with the mutation structure of the source made
explicit: `players` is a reference into a heap of list cells,
`ps = list(players)` (line 137) allocates a fresh cell holding a copy,
and `ps.remove(player)` / `ps.pop()` update that fresh cell in place.
Returns the result (`none` models the crashes) with the final heap. -/
def get_teammates_st (h : List (List String)) (playersRef : Nat)
    (player : Option String) : Option String × List (List String) :=
  match player with
  | none => get_teammates_st_rest (h ++ [heapRead h playersRef]) h.length
  | some p =>
    match pyRemove p (heapRead (h ++ [heapRead h playersRef]) h.length) with
    | none => (none, h ++ [heapRead h playersRef])
    | some ps1 =>
      get_teammates_st_rest
        ((h ++ [heapRead h playersRef]).set h.length ps1) h.length

lemma get_teammates_st_rest_frame (h : List (List String)) (psRef j : Nat)
    (hne : j ≠ psRef) :
    ((get_teammates_st_rest h psRef).2).get? j = h.get? j := by
  unfold get_teammates_st_rest
  cases hl : (heapRead h psRef).getLast? with
  | none => rfl
  | some last => simp [List.get?_eq_getElem?, List.getElem?_set_ne (Ne.symm hne)]

lemma heapRead_set_self (h : List (List String)) (i : Nat) (v : List String)
    (hlt : i < h.length) : heapRead (h.set i v) i = v := by
  simp [heapRead, List.getElem?_set_self (by simpa using hlt)]

lemma heapRead_append_self (h : List (List String)) (c : List String) :
    heapRead (h ++ [c]) h.length = c := by
  simp [heapRead, List.getElem?_append_right (Nat.le_refl _)]

lemma get_teammates_st_rest_fst (h : List (List String)) (psRef : Nat)
    (hlt : psRef < h.length) :
    (get_teammates_st_rest h psRef).1 =
      (match (heapRead h psRef).getLast? with
       | none => none
       | some last =>
         some (pyDropLast2 ((heapRead h psRef).dropLast.foldl
           (fun acc p => acc ++ p ++ ", ") "") ++ " and " ++ last ++ ".")) := by
  unfold get_teammates_st_rest
  cases hl : (heapRead h psRef).getLast? with
  | none => rfl
  | some last => simp [heapRead_set_self h psRef _ hlt]

/-- The heap-model result agrees with the pure `get_teammates` applied to
the value of the `players` reference. -/
lemma get_teammates_st_fst (h : List (List String)) (r : Nat)
    (p : Option String) :
    (get_teammates_st h r p).1 = get_teammates (heapRead h r) p := by
  unfold get_teammates_st get_teammates remainingPlayers
  have hcopy := heapRead_append_self h (heapRead h r)
  cases p with
  | none =>
      rw [get_teammates_st_rest_fst _ _ (by simp), hcopy]
  | some q =>
      rw [hcopy]
      cases hpr : pyRemove q (heapRead h r) with
      | none => simp only [hpr]
      | some ps1 =>
          have hset : heapRead
              ((h ++ [heapRead h r]).set h.length ps1) h.length = ps1 := by
            rw [heapRead_set_self _ _ _ (by simp)]
          simp only [hpr]
          rw [get_teammates_st_rest_fst _ _ (by simp), hset]

/-- C10: `get_teammates` never mutates its `players` argument: the cell
the `players` reference points at holds the same list after the call as
before, for every exclusion value, because line 137 copies the list
before `remove`/`pop` are applied. -/
theorem claim_C10_players_not_mutated (h : List (List String))
    (playersRef : Nat) (player : Option String)
    (hlt : playersRef < h.length) :
    ((get_teammates_st h playersRef player).2).get? playersRef =
      h.get? playersRef := by
  unfold get_teammates_st
  have hne : playersRef ≠ h.length := by omega
  have happ : (h ++ [heapRead h playersRef]).get? playersRef =
      h.get? playersRef := List.get?_append hlt
  cases player with
  | none => rw [get_teammates_st_rest_frame _ _ _ hne]; exact happ
  | some p =>
      cases hpr : pyRemove p (heapRead (h ++ [heapRead h playersRef])
          h.length) with
      | none => simpa [hpr] using happ
      | some ps1 =>
          simp only [hpr]
          rw [get_teammates_st_rest_frame _ _ _ hne]
          rw [List.get?_eq_getElem?, List.getElem?_set_ne (by omega),
            ← List.get?_eq_getElem?]
          exact happ

/-- C10 witness: the heap cell holding ["A","B"] is untouched by the
call that excludes "A". -/
theorem claim_C10_players_not_mutated_witness :
    (0 : Nat) < ([["A", "B"]] : List (List String)).length ∧
    ((get_teammates_st [["A", "B"]] 0 (some "A")).2).get? 0 =
      ([["A", "B"]] : List (List String)).get? 0 :=
  ⟨by decide,
    claim_C10_players_not_mutated [["A", "B"]] 0 (some "A") (by decide)⟩

/-- A GIMP text layer as `center_text` uses it: the rendered pixel width
and the (x, y) offsets. -/
structure TextLayer where
  width : Nat
  x : Int
  y : Int
deriving DecidableEq

/-- The placement loop of `center_text` (source lines 117-120): place
each layer at the running x coordinate, keep its y offset, and advance
the running x by the layer's width. -/
def place_texts (x : Int) : List TextLayer → List TextLayer
  | [] => []
  | t :: rest => { t with x := x } :: place_texts (x + t.width) rest

/-- `center_text(mid, texts)` from the source: sum the widths, start at
`mid - sum / 2` (Python 2 floor division on the non-negative pixel sum)
and lay the layers out left to right. -/
def center_text (mid : Int) (texts : List TextLayer) : List TextLayer :=
  place_texts (mid - ((texts.foldl (fun a t => a + t.width) 0) / 2 : Nat))
    texts

lemma place_texts_length (x : Int) (l : List TextLayer) :
    (place_texts x l).length = l.length := by
  induction l generalizing x with
  | nil => rfl
  | cons t rest ih => simp [place_texts, ih]

lemma place_texts_get? (l : List TextLayer) :
    ∀ (x : Int) (i : Nat),
      (place_texts x l).get? i = (l.get? i).map
        (fun t => { t with
          x := x + (((l.take i).map (fun s => s.width)).sum : Nat) }) := by
  induction l with
  | nil => intro x i; simp [place_texts]
  | cons t rest ih =>
      intro x i
      cases i with
      | zero => simp [place_texts]
      | succ j =>
          simp only [place_texts, List.get?_cons_succ, List.take_succ_cons,
            List.map_cons, List.sum_cons]
          rw [ih (x + t.width) j]
          cases hj : rest.get? j with
          | none => rfl
          | some s =>
              show some _ = some _
              rw [Option.some_inj]
              cases s with
              | mk w xx yy =>
                  simp only [TextLayer.mk.injEq]
                  refine ⟨trivial, by push_cast; ring, trivial⟩

lemma foldl_width_sum (l : List TextLayer) (acc : Nat) :
    l.foldl (fun a t => a + t.width) acc =
      acc + (l.map (fun t => t.width)).sum := by
  induction l generalizing acc with
  | nil => simp
  | cons t rest ih => simp [ih]; omega

lemma take_width_sum_succ (l : List TextLayer) :
    ∀ (i : Nat) (t : TextLayer), l.get? i = some t →
      ((l.take (i + 1)).map (fun s => s.width)).sum =
        ((l.take i).map (fun s => s.width)).sum + t.width := by
  induction l with
  | nil => intro i t hget; simp at hget
  | cons a rest ih =>
      intro i t hget
      cases i with
      | zero =>
          simp only [List.get?_cons_zero, Option.some.injEq] at hget
          subst hget
          simp
      | succ j =>
          simp only [List.get?_cons_succ] at hget
          simp only [List.take_succ_cons, List.map_cons, List.sum_cons,
            ih j t hget]
          omega

/-- C6: for a non-empty block list, `center_text` places the first block
at `midpoint - (sum of all widths) / 2`, places each subsequent block at
the previous block's x plus the previous block's width, leaves every
block's vertical offset and width unchanged, and keeps the number of
blocks. -/
theorem claim_C6_center_text (mid : Int) (texts : List TextLayer)
    (hne : texts ≠ []) :
    ((center_text mid texts).getD 0 ⟨0, 0, 0⟩).x =
        mid - (((texts.map (fun t => t.width)).sum / 2 : Nat) : Int) ∧
    (∀ i, i + 1 < texts.length →
      ((center_text mid texts).getD (i + 1) ⟨0, 0, 0⟩).x =
        ((center_text mid texts).getD i ⟨0, 0, 0⟩).x +
          ((texts.getD i ⟨0, 0, 0⟩).width : Int)) ∧
    (∀ i, ((center_text mid texts).getD i ⟨0, 0, 0⟩).y =
        (texts.getD i ⟨0, 0, 0⟩).y ∧
      ((center_text mid texts).getD i ⟨0, 0, 0⟩).width =
        (texts.getD i ⟨0, 0, 0⟩).width) ∧
    (center_text mid texts).length = texts.length := by
  have hct : center_text mid texts =
      place_texts
        (mid - (((texts.map (fun t => t.width)).sum / 2 : Nat) : Int))
        texts := by
    unfold center_text
    rw [foldl_width_sum, Nat.zero_add]
  refine ⟨?_, ?_, ?_, ?_⟩
  · rw [hct, List.getD_eq_get?, place_texts_get?]
    cases texts with
    | nil => exact absurd rfl hne
    | cons t rest => simp
  · intro i hi
    cases hti : texts.get? i with
    | none =>
        rw [List.get?_eq_none] at hti
        omega
    | some ti =>
        cases hti1 : texts.get? (i + 1) with
        | none =>
            rw [List.get?_eq_none] at hti1
            omega
        | some ti1 =>
            simp only [hct, List.getD_eq_get?, place_texts_get?, hti, hti1]
            rw [take_width_sum_succ texts i ti hti]
            simp [hti]
            push_cast
            ring
  · intro i
    simp only [hct, List.getD_eq_get?, place_texts_get?]
    cases hti : texts.get? i <;> simp [hti]
  · rw [hct, place_texts_length]

/-- C6 witness: blocks of widths 40 and 20 centered on 100: the first
block lands at x = 100 - 60/2 = 70, the second at 70 + 40 = 110, and
the vertical offsets are kept. -/
theorem claim_C6_center_text_witness :
    ([⟨40, 0, 5⟩, ⟨20, 0, 7⟩] : List TextLayer) ≠ [] ∧
    ((center_text 100 [⟨40, 0, 5⟩, ⟨20, 0, 7⟩]).getD 0 ⟨0, 0, 0⟩).x = 70 ∧
    ((center_text 100 [⟨40, 0, 5⟩, ⟨20, 0, 7⟩]).getD 1 ⟨0, 0, 0⟩).x = 110 ∧
    ((center_text 100 [⟨40, 0, 5⟩, ⟨20, 0, 7⟩]).getD 1 ⟨0, 0, 0⟩).y = 7 := by
  have h := claim_C6_center_text 100 [⟨40, 0, 5⟩, ⟨20, 0, 7⟩] (by decide)
  exact ⟨by decide, by simpa using h.1, by decide, by decide⟩

/-- The deletion set of source line 201: the second argument of
`name.translate(None, ...)` after Python escape processing (the literal
spells backslash as an invalid escape kept verbatim, and escapes the
quote characters). -/
def forbiddenChars : String := "/\\!?@#$.:,;<>\"\x27\x60*+~\x7b([])\x7d"

/-- `name.translate(None, dels)` from source line 201: delete every
character that occurs in `dels`, keep all other characters in order. -/
def sanitize (name : String) : String :=
  String.mk (name.data.filter (fun c => !(forbiddenChars.data.contains c)))

/-- The forbidden set exactly as the spec spells it. -/
def specForbidden : List Char :=
  ['/', '\\', '!', '?', '@', '#', '$', '.', ':', ',', ';', '<', '>',
   '"', '\x27', '\x60', '*', '+', '~', '\x7b', '(', '[', ']', ')', '\x7d']

/-- C9: sanitization is exactly the filter that removes every occurrence
of every character of the spec's forbidden set and keeps all other
characters in their original relative order; moreover no character of
the forbidden set is alphanumeric, a space, an underscore or a hyphen,
so those characters are always kept. -/
theorem claim_C9_sanitize_filter (name : String) :
    (sanitize name).data =
      name.data.filter (fun c => !(specForbidden.contains c)) ∧
    specForbidden.all
      (fun c => !(c.isAlphanum || c == ' ' || c == '_' || c == '-')) = true := by
  constructor
  · have h : forbiddenChars.data = specForbidden := by decide
    simp [sanitize, h]
  · decide

/-- The whitespace characters Python `str.strip()` removes. -/
def isPyWhitespace (c : Char) : Bool :=
  c == ' ' || c == '\t' || c == '\n' || c == '\r' || c == '\x0b' || c == '\x0c'

/-- Python `str.strip()`: remove leading and trailing whitespace. -/
def pyStrip (s : String) : String :=
  String.mk (((s.data.dropWhile isPyWhitespace).reverse.dropWhile
    isPyWhitespace).reverse)

/-- Worker for Python `str.split(sep)`: scan left to right, cut at each
non-overlapping occurrence of `sep`.  One unit of fuel is spent per
consumed character, so the initial fuel always suffices; the fuel-zero
fallback is unreachable. -/
def pySplitAux (sep : List Char) : Nat → List Char → List Char →
    List (List Char)
  | _, acc, [] => [acc.reverse]
  | 0, acc, rest => [acc.reverse ++ rest]
  | fuel + 1, acc, c :: cs =>
    if sep.isPrefixOf (c :: cs) then
      acc.reverse :: pySplitAux sep fuel [] ((c :: cs).drop sep.length)
    else
      pySplitAux sep fuel (c :: acc) cs

/-- Python `str.split(sep)` with a non-empty separator: in particular
`"".split(sep)` is `[""]` and a string without the separator is
returned whole as a one-element list. -/
def pySplit (s sep : String) : List String :=
  (pySplitAux sep.data (s.data.length + sep.data.length) [] s.data).map
    String.mk

/-- Conversion of one CSV data row into a Team (source lines 256-268):
players are columns 4-8 stripped with blanks dropped, coaches are
column 9 and managers column 10 split on " & ", the name is column 0,
`shared_responsibility` is unconditionally false, and the multiplicity
flags hold when the respective split has more than one name.  `none`
models the `IndexError` on a row with a missing column. -/
def parse_row (row : List String) : Option Team :=
  match row.get? 4, row.get? 5, row.get? 6, row.get? 7, row.get? 8 with
  | some p4, some p5, some p6, some p7, some p8 =>
    let players := ([p4, p5, p6, p7, p8].map pyStrip).filter
      (fun x => x ≠ "")
    match row.get? 9, row.get? 10 with
    | some c9, some c10 =>
      let coaches := pySplit c9 " & "
      let managers := pySplit c10 " & "
      match row.get? 0 with
      | some nm =>
        some { name := nm, players := players,
               mentors := coaches ++ managers,
               shared_responsibility := false,
               mult_coaches := decide (coaches.length > 1),
               mult_managers := decide (managers.length > 1) }
      | none => none
    | _, _ => none
  | _, _, _, _, _ => none

/-- The `for team in r` loop of `get_teams`: convert each row in order,
appending to the accumulated list; the first row crash aborts the
call. -/
def rows_to_teams : List (List String) → Option (List Team)
  | [] => some []
  | row :: rest =>
    match parse_row row with
    | none => none
    | some t =>
      match rows_to_teams rest with
      | none => none
      | some ts => some (t :: ts)

/-- `get_teams(season_file)` from the source (lines 251-272): the `none`
input models a file that cannot be opened; the header row is read and
discarded (an empty file propagates the `StopIteration` of the header
read); each remaining row is converted in order and any row failure
fails the whole call. -/
def get_teams : Option (List (List String)) → Option (List Team)
  | none => none
  | some [] => none
  | some (_ :: rows) => rows_to_teams rows

/-- The row conversion exactly as the claim words it, total on rows
with at least 11 columns. -/
def specRowTeam (row : List String) : Team :=
  let players := ([row.getD 4 "", row.getD 5 "", row.getD 6 "",
    row.getD 7 "", row.getD 8 ""].map pyStrip).filter (fun x => x ≠ "")
  let coaches := pySplit (row.getD 9 "") " & "
  let managers := pySplit (row.getD 10 "") " & "
  { name := row.getD 0 "",
    players := players,
    mentors := coaches ++ managers,
    shared_responsibility := false,
    mult_coaches := decide (coaches.length > 1),
    mult_managers := decide (managers.length > 1) }

lemma get?_eq_some_getD (row : List String) (i : Nat)
    (h : i < row.length) : row.get? i = some (row.getD i "") := by
  rw [List.getD_eq_get?]
  cases hg : row.get? i with
  | none =>
      rw [List.get?_eq_none] at hg
      omega
  | some v => rfl

lemma parse_row_complete (row : List String) (h : 11 ≤ row.length) :
    parse_row row = some (specRowTeam row) := by
  unfold parse_row
  rw [get?_eq_some_getD row 4 (by omega), get?_eq_some_getD row 5 (by omega),
    get?_eq_some_getD row 6 (by omega), get?_eq_some_getD row 7 (by omega),
    get?_eq_some_getD row 8 (by omega), get?_eq_some_getD row 9 (by omega),
    get?_eq_some_getD row 10 (by omega), get?_eq_some_getD row 0 (by omega)]
  rfl

lemma parse_row_short (row : List String) (h : row.length < 11) :
    parse_row row = none := by
  have h10 : row[10]? = none := List.getElem?_eq_none (by omega)
  unfold parse_row
  cases h4 : row.get? 4 <;> cases h5 : row.get? 5 <;>
    cases h6 : row.get? 6 <;> cases h7 : row.get? 7 <;>
    cases h8 : row.get? 8 <;> cases h9 : row.get? 9 <;> simp [h10]

lemma rows_to_teams_complete (rows : List (List String))
    (h : ∀ row ∈ rows, 11 ≤ row.length) :
    rows_to_teams rows = some (rows.map specRowTeam) := by
  induction rows with
  | nil => rfl
  | cons r rs ih =>
      unfold rows_to_teams
      rw [parse_row_complete r (h r (by simp)),
        ih (fun row hr => h row (by simp [hr]))]
      rfl

lemma rows_to_teams_bad (rows : List (List String)) (r : List String)
    (hmem : r ∈ rows) (hshort : r.length < 11) :
    rows_to_teams rows = none := by
  induction rows with
  | nil => simp at hmem
  | cons r0 rs ih =>
      unfold rows_to_teams
      rcases List.mem_cons.mp hmem with heq | htl
      · subst heq
        rw [parse_row_short r hshort]
      · cases hp : parse_row r0 with
        | none => rfl
        | some t => rw [ih htl]

/-- C4: parsing skips the header row and yields one Team per data row in
file order, with name from column 0, stripped non-empty players from
columns 4-8, mentors the column-9 coach names followed by the column-10
manager names (each split on " & "), the multiplicity flags true iff
the split has more than one name, and shared_responsibility always
false; the call fails when the file cannot be opened (`none` contents)
or some data row has fewer than 11 columns. -/
theorem claim_C4_get_teams (header : List String)
    (rows : List (List String)) :
    get_teams none = none ∧
    ((∀ row ∈ rows, 11 ≤ row.length) →
      get_teams (some (header :: rows)) = some (rows.map specRowTeam)) ∧
    (∀ r ∈ rows, r.length < 11 →
      get_teams (some (header :: rows)) = none) := by
  refine ⟨rfl, ?_, ?_⟩
  · intro hall
    unfold get_teams
    exact rows_to_teams_complete rows hall
  · intro r hmem hshort
    unfold get_teams
    exact rows_to_teams_bad rows r hmem hshort

/-- C4 witness: a concrete two-column-coach roster row parses to the
expected Team, and a concrete short row fails the call. -/
theorem claim_C4_get_teams_witness :
    (∀ row ∈ [["Hawks", "", "", "", "A ", "B", "C", "D", "", "X & Y", "Z"]],
      11 ≤ row.length) ∧
    get_teams (some [["hdr"],
        ["Hawks", "", "", "", "A ", "B", "C", "D", "", "X & Y", "Z"]]) =
      some [{ name := "Hawks", players := ["A", "B", "C", "D"],
              mentors := ["X", "Y", "Z"], shared_responsibility := false,
              mult_coaches := true, mult_managers := false }] ∧
    get_teams (some [["hdr"], ["short", "row"]]) = none := by
  have h1 := (claim_C4_get_teams ["hdr"]
    [["Hawks", "", "", "", "A ", "B", "C", "D", "", "X & Y", "Z"]]).2.1
    (by decide)
  have h2 := (claim_C4_get_teams ["hdr"] [["short", "row"]]).2.2
    ["short", "row"] (by decide) (by decide)
  refine ⟨by decide, ?_, h2⟩
  rw [h1]
  decide

/-- PDB calls issued by the plug-in, recorded as trace events.  Images
are numbered: 0 is the editing-session image the plug-in was invoked on,
and each duplicate gets a fresh positive number.  A drawable is
identified by the image it belongs to; `savePng img drawableImg path`
records that `file_png_save` received the handle of image `img` and a
drawable of image `drawableImg`.  `centerTexts` stands for the
`set_offsets` calls `center_text` performs on the named layers (its
arithmetic is verified separately on `center_text`). -/
inductive Ev where
  | progressInit
  | undoStart
  | findLayer (layerName : String) (found : Bool)
  | setVisible (layerName : String) (vis : Bool)
  | setText (layerName : String) (txt : String)
  | centerTexts (layerNames : List String)
  | duplicate (src dst : Nat)
  | mergeVisible (img : Nat)
  | savePng (img : Nat) (drawableImg : Nat) (path : String)
  | deleteImage (img : Nat)
  | message (txt : String)
  | undoEnd
  | progressEnd
deriving DecidableEq

/-- The mentor loop of `set_signatures_active` (source lines 178-186):
skip empty names, look the mentor's layer up in the template, set it
visible or hidden when found, and append the name to the missing log
when not found — but only on an activating pass. -/
def sig_mentor_loop (tmpl : List String) (active : Bool) :
    List String → List String → List String × List Ev
  | log, [] => (log, [])
  | log, m :: rest =>
    if m = "" then sig_mentor_loop tmpl active log rest
    else if tmpl.contains m then
      ((sig_mentor_loop tmpl active log rest).1,
       Ev.findLayer m true :: Ev.setVisible m active ::
         (sig_mentor_loop tmpl active log rest).2)
    else if active then
      ((sig_mentor_loop tmpl active (log ++ [m]) rest).1,
       Ev.findLayer m false ::
         (sig_mentor_loop tmpl active (log ++ [m]) rest).2)
    else
      ((sig_mentor_loop tmpl active log rest).1,
       Ev.findLayer m false :: (sig_mentor_loop tmpl active log rest).2)

/-- `set_signatures_active(image, team, active)` (source lines 152-186):
look up the three signature-group layers, set their visibility from
`shared_responsibility`, set the singular/plural coach and manager
labels unless responsibility is shared, then run the mentor loop over
`team.mentors` with the given missing-log. -/
def set_signatures_active (tmpl : List String) (team : Team)
    (active : Bool) (log : List String) : List String × List Ev :=
  ((sig_mentor_loop tmpl active log team.mentors).1,
   [Ev.findLayer "main_manager" (tmpl.contains "main_manager"),
    Ev.findLayer "main_coach" (tmpl.contains "main_coach"),
    Ev.findLayer "main_manager_coach" (tmpl.contains "main_manager_coach"),
    Ev.setVisible "main_manager" (!team.shared_responsibility),
    Ev.setVisible "main_coach" (!team.shared_responsibility),
    Ev.setVisible "main_manager_coach" team.shared_responsibility] ++
   (if team.shared_responsibility then []
    else
      [Ev.setText "main_coach"
        (if team.mult_coaches then "Coaches" else "Coach"),
       Ev.setText "main_manager"
        (if team.mult_managers then "Team Managers" else "Team Manager")]) ++
   (sig_mentor_loop tmpl active log team.mentors).2)

/-- `export(image, outputFolder, name)` (source lines 189-210): sanitize
the name, duplicate the session image `orig` into the fresh image `dup`,
merge the duplicate's visible layers, call `file_png_save` — which, per
source line 207, receives the handle of the original image together with
the duplicate's merged layer as drawable — and delete the duplicate. -/
def export_image (orig dup : Nat) (outputFolder name : String) :
    List Ev :=
  [Ev.duplicate orig dup,
   Ev.mergeVisible dup,
   Ev.savePng orig dup (outputFolder ++ "\\" ++ sanitize name ++ ".png"),
   Ev.deleteImage dup]

/-- The per-player loop (source lines 85-89): set the player's name and
teammate sentence, re-center the two mate fields, and export under
`"{team}_{player}"`; `fresh` numbers the duplicate of each export. -/
def player_loop (output_folder : String) (t : Team) :
    List String → Nat → Option (Nat × List Ev)
  | [], fresh => some (fresh, [])
  | p :: rest, fresh =>
    match get_teammates t.players (some p) with
    | none => none
    | some mates =>
      match player_loop output_folder t rest (fresh + 1) with
      | none => none
      | some (fresh2, evs) =>
        some (fresh2,
          Ev.setText "main_name" p ::
          Ev.setText "main_mates" mates ::
          Ev.centerTexts ["text_mates", "main_mates"] ::
          (export_image 0 fresh output_folder (t.name ++ "_" ++ p) ++ evs))

/-- Processing of one team in the main loop (source lines 49-92), after
the restriction check passed: activating signature pass; on a dry run
(`do_export` false) immediately the deactivating pass and nothing else;
otherwise the team certificate (set and center the team name, switch to
the roster layout, set name and full mate list, export to the team
folder), the per-player certificates, and the deactivating pass. -/
def process_team (tmpl : List String)
    (output_folder team_output_folder : String) (do_export : Bool)
    (t : Team) (log : List String) (fresh : Nat) :
    Option (List String × Nat × List Ev) :=
  if !do_export then
    some ((set_signatures_active tmpl t false
            (set_signatures_active tmpl t true log).1).1,
          fresh,
          (set_signatures_active tmpl t true log).2 ++
          (set_signatures_active tmpl t false
            (set_signatures_active tmpl t true log).1).2)
  else
    match get_teammates t.players none with
    | none => none
    | some matesAll =>
      match player_loop output_folder t t.players (fresh + 1) with
      | none => none
      | some (fresh2, pEvs) =>
        some ((set_signatures_active tmpl t false
                (set_signatures_active tmpl t true log).1).1,
              fresh2,
              (set_signatures_active tmpl t true log).2 ++
              (Ev.setText "main_team" t.name ::
               Ev.centerTexts ["text_team", "main_team"] ::
               Ev.setText "main_award" "Awarded to the team" ::
               Ev.setVisible "text_mates" false ::
               Ev.setVisible "text_team" false ::
               Ev.setVisible "main_team" false ::
               Ev.setVisible "text_roster" true ::
               Ev.setText "main_name" t.name ::
               Ev.setText "main_mates" matesAll ::
               Ev.centerTexts ["main_mates"] ::
               export_image 0 fresh team_output_folder t.name) ++
              (Ev.setText "main_award" "Awarded to" ::
               Ev.setVisible "text_mates" true ::
               Ev.setVisible "text_team" true ::
               Ev.setVisible "main_team" true ::
               Ev.setVisible "text_roster" false ::
               pEvs) ++
              (set_signatures_active tmpl t false
                (set_signatures_active tmpl t true log).1).2)

/-- The `for t in teams` loop (source lines 44-92): a team is skipped
entirely when a non-empty restriction differs from its name. -/
def teams_loop (tmpl : List String)
    (output_folder team_output_folder restrictions : String)
    (do_export : Bool) :
    List Team → List String → Nat →
      Option (List String × Nat × List Ev)
  | [], log, fresh => some (log, fresh, [])
  | t :: rest, log, fresh =>
    if restrictions ≠ "" ∧ restrictions ≠ t.name then
      teams_loop tmpl output_folder team_output_folder restrictions
        do_export rest log fresh
    else
      match process_team tmpl output_folder team_output_folder do_export
          t log fresh with
      | none => none
      | some (log1, fresh1, evs1) =>
        match teams_loop tmpl output_folder team_output_folder
            restrictions do_export rest log1 fresh1 with
        | none => none
        | some (log2, fresh2, evs2) => some (log2, fresh2, evs1 ++ evs2)

/-- Python `str(list_of_strings)`: bracketed, comma-separated, each
element in single quotes — the shape `gimp.message` renders on source
line 95. -/
def pyStrList (l : List String) : String :=
  "[" ++ commaJoin (l.map (fun s => "\x27" ++ s ++ "\x27")) ++ "]"

/-- `save_grad_certificates` (source lines 6-100) over already-parsed
teams: progress and undo bookkeeping, the initial lookups of the seven
main layers, the team loop started from the global `missing_signs`
value at entry (`log0`), and the final missing-signature message. -/
def save_grad_certificates (tmpl : List String)
    (output_folder team_output_folder restrictions : String)
    (do_export : Bool) (teams : List Team) (log0 : List String) :
    Option (List String × List Ev) :=
  match teams_loop tmpl output_folder team_output_folder restrictions
      do_export teams log0 1 with
  | none => none
  | some (log, _, evs) =>
    some (log,
      ([Ev.progressInit, Ev.undoStart,
        Ev.findLayer "main_name" (tmpl.contains "main_name"),
        Ev.findLayer "main_team" (tmpl.contains "main_team"),
        Ev.findLayer "main_mates" (tmpl.contains "main_mates"),
        Ev.findLayer "text_team" (tmpl.contains "text_team"),
        Ev.findLayer "text_mates" (tmpl.contains "text_mates"),
        Ev.findLayer "main_award" (tmpl.contains "main_award"),
        Ev.findLayer "text_roster" (tmpl.contains "text_roster")] ++
       evs) ++
      [Ev.message ("Missing Signatures from " ++ pyStrList log),
       Ev.undoEnd, Ev.progressEnd])

/-- Does the event mutate the layer stack or content of image `img`?
Text, visibility and offset changes act on layers of the editing-session
image (image 0); merging mutates the image it is called on; deleting
destroys its image; duplicating and writing a file mutate nothing. -/
def mutatesImage (img : Nat) : Ev → Bool
  | Ev.setText _ _ => img == 0
  | Ev.setVisible _ _ => img == 0
  | Ev.centerTexts _ => img == 0
  | Ev.mergeVisible i => img == i
  | Ev.deleteImage i => img == i
  | _ => false

/-- C2: every certificate export duplicates the session image, flattens
(merges) only the duplicate, hands the duplicate's merged layer to the
PNG writer, deletes the duplicate immediately after the write, and
performs no event that mutates the session image. -/
theorem claim_C2_export_duplicate (orig dup : Nat) (dir name : String)
    (hne : dup ≠ orig) :
    export_image orig dup dir name =
      [Ev.duplicate orig dup, Ev.mergeVisible dup,
       Ev.savePng orig dup (dir ++ "\\" ++ sanitize name ++ ".png"),
       Ev.deleteImage dup] ∧
    (∀ e ∈ export_image orig dup dir name,
      mutatesImage orig e = false) ∧
    (∃ pre, export_image orig dup dir name =
      pre ++ [Ev.savePng orig dup (dir ++ "\\" ++ sanitize name ++ ".png"),
              Ev.deleteImage dup]) := by
  have hne' : orig ≠ dup := Ne.symm hne
  refine ⟨rfl, ?_, ⟨[Ev.duplicate orig dup, Ev.mergeVisible dup], rfl⟩⟩
  intro e he
  simp only [export_image, List.mem_cons, List.mem_singleton,
    List.not_mem_nil, or_false] at he
  rcases he with h | h | h | h <;> subst h <;> simp [mutatesImage, hne']

/-- C2 witness: a concrete export with duplicate image 1: its event
block, the absence of session-mutating events, and the delete directly
after the write. -/
theorem claim_C2_export_duplicate_witness :
    (1 : Nat) ≠ 0 ∧
    (∀ e ∈ export_image 0 1 "out" "Team.1",
      mutatesImage 0 e = false) ∧
    (∃ pre, export_image 0 1 "out" "Team.1" =
      pre ++ [Ev.savePng 0 1 ("out" ++ "\\" ++ sanitize "Team.1" ++ ".png"),
              Ev.deleteImage 1]) :=
  ⟨by decide, (claim_C2_export_duplicate 0 1 "out" "Team.1" (by decide)).2.1,
    (claim_C2_export_duplicate 0 1 "out" "Team.1" (by decide)).2.2⟩

/-- C3 counterexample: a mentor listed twice (the same person appears as
coach and as manager) whose signature layer is missing is appended to
the log twice by a single activating pass — the log is not a set within
one activation. -/
theorem claim_C3_counterexample :
    (set_signatures_active []
      { name := "T", players := ["A"], mentors := ["X", "X"],
        shared_responsibility := false, mult_coaches := false,
        mult_managers := false } true []).1 = ["X", "X"] ∧
    ¬ (["X", "X"] : List String).Nodup :=
  ⟨by decide, by decide⟩

/-- The non-empty mentors of a team whose layer is absent from the
template, in mentor-list order (one entry per occurrence). -/
def missingOf (tmpl : List String) (t : Team) : List String :=
  t.mentors.filter (fun m => !(m == "") && !(tmpl.contains m))

/-- Events a dry-run signature pass may emit: layer lookups, visibility
toggles, and the signature-label texts. -/
def dryRunOk : Ev → Bool
  | Ev.findLayer _ _ => true
  | Ev.setVisible _ _ => true
  | Ev.setText nm _ => nm == "main_coach" || nm == "main_manager"
  | _ => false

/-- Export-related events: duplicating, merging, writing, deleting. -/
def isExportEvent : Ev → Bool
  | Ev.duplicate _ _ => true
  | Ev.mergeVisible _ => true
  | Ev.savePng _ _ _ => true
  | Ev.deleteImage _ => true
  | _ => false

/-- User-message events. -/
def isMessage : Ev → Bool
  | Ev.message _ => true
  | _ => false

lemma sig_mentor_loop_fst_false (tmpl : List String)
    (mentors : List String) : ∀ log,
    (sig_mentor_loop tmpl false log mentors).1 = log := by
  induction mentors with
  | nil => intro log; rfl
  | cons m rest ih =>
      intro log
      unfold sig_mentor_loop
      by_cases hm : m = ""
      · simp [hm, ih]
      · by_cases hc : m ∈ tmpl
        · simp [hm, hc, ih]
        · simp [hm, hc, ih]

lemma sig_mentor_loop_fst_true (tmpl : List String)
    (mentors : List String) : ∀ log,
    (sig_mentor_loop tmpl true log mentors).1 =
      log ++ mentors.filter
        (fun m => !(m == "") && !(tmpl.contains m)) := by
  induction mentors with
  | nil => intro log; simp [sig_mentor_loop]
  | cons m rest ih =>
      intro log
      unfold sig_mentor_loop
      by_cases hm : m = ""
      · simp [hm, ih]
      · by_cases hc : m ∈ tmpl
        · simp [hm, hc, ih]
        · simp [hm, hc, ih]

lemma set_signatures_active_fst_true (tmpl : List String) (t : Team)
    (log : List String) :
    (set_signatures_active tmpl t true log).1 = log ++ missingOf tmpl t := by
  simp [set_signatures_active, sig_mentor_loop_fst_true, missingOf]

lemma set_signatures_active_fst_false (tmpl : List String) (t : Team)
    (log : List String) :
    (set_signatures_active tmpl t false log).1 = log := by
  simp [set_signatures_active, sig_mentor_loop_fst_false]

lemma sig_mentor_loop_dryOk (tmpl : List String) (active : Bool)
    (mentors : List String) : ∀ log e,
    e ∈ (sig_mentor_loop tmpl active log mentors).2 →
      dryRunOk e = true := by
  induction mentors with
  | nil => intro log e he; simp [sig_mentor_loop] at he
  | cons m rest ih =>
      intro log e he
      unfold sig_mentor_loop at he
      by_cases hm : m = ""
      · simp only [if_pos hm] at he
        exact ih _ _ he
      · by_cases hc : tmpl.contains m
        · simp only [if_neg hm, if_pos hc, List.mem_cons] at he
          rcases he with rfl | rfl | hmem
          · rfl
          · rfl
          · exact ih _ _ hmem
        · by_cases ha : active = true
          · simp only [if_neg hm, if_neg hc, if_pos ha, List.mem_cons] at he
            rcases he with rfl | hmem
            · rfl
            · exact ih _ _ hmem
          · simp only [if_neg hm, if_neg hc, if_neg ha, List.mem_cons] at he
            rcases he with rfl | hmem
            · rfl
            · exact ih _ _ hmem

lemma set_signatures_active_dryOk (tmpl : List String) (t : Team)
    (active : Bool) (log : List String) (e : Ev)
    (he : e ∈ (set_signatures_active tmpl t active log).2) :
    dryRunOk e = true := by
  unfold set_signatures_active at he
  simp only [List.mem_append, List.mem_cons, List.not_mem_nil,
    or_false] at he
  rcases he with ((rfl | rfl | rfl | rfl | rfl | rfl) | hif) | hloop
  · rfl
  · rfl
  · rfl
  · rfl
  · rfl
  · rfl
  · by_cases hs : t.shared_responsibility = true
    · simp [hs] at hif
    · simp only [if_neg hs, List.mem_cons, List.not_mem_nil,
        or_false] at hif
      rcases hif with rfl | rfl <;> rfl
  · exact sig_mentor_loop_dryOk tmpl active t.mentors log e hloop

lemma sig_mentor_loop_findLayer_mem (tmpl : List String) (active : Bool)
    (mentors : List String) : ∀ log m, m ∈ mentors → m ≠ "" →
      Ev.findLayer m (tmpl.contains m) ∈
        (sig_mentor_loop tmpl active log mentors).2 := by
  induction mentors with
  | nil => intro log m hm; simp at hm
  | cons m0 rest ih =>
      intro log m hm hne
      unfold sig_mentor_loop
      rcases List.mem_cons.mp hm with rfl | htl
      · rw [if_neg hne]
        by_cases hc : m ∈ tmpl
        · simp [hc]
        · by_cases ha : active = true
          · simp [hc, ha]
          · simp [hc, ha]
      · by_cases hm0 : m0 = ""
        · rw [if_pos hm0]
          exact ih _ _ htl hne
        · rw [if_neg hm0]
          by_cases hc : m0 ∈ tmpl
          · have hcc : tmpl.contains m0 = true := by simp [hc]
            rw [if_pos hcc]
            simp only [List.mem_cons]
            exact Or.inr (Or.inr (ih _ _ htl hne))
          · rw [if_neg (by simp [hc])]
            by_cases ha : active = true
            · rw [if_pos ha]
              simp only [List.mem_cons]
              exact Or.inr (ih _ _ htl hne)
            · rw [if_neg ha]
              simp only [List.mem_cons]
              exact Or.inr (ih _ _ htl hne)

lemma set_signatures_active_findLayer_mem (tmpl : List String) (t : Team)
    (active : Bool) (log : List String) (m : String)
    (hm : m ∈ t.mentors) (hne : m ≠ "") :
    Ev.findLayer m (tmpl.contains m) ∈
      (set_signatures_active tmpl t active log).2 := by
  unfold set_signatures_active
  simp only [List.mem_append]
  exact Or.inr (sig_mentor_loop_findLayer_mem tmpl active t.mentors log m
    hm hne)

lemma dryRunOk_not_message (e : Ev) (h : dryRunOk e = true) :
    isMessage e = false := by
  cases e <;> simp_all [dryRunOk, isMessage]

lemma dryRunOk_not_export (e : Ev) (h : dryRunOk e = true) :
    isExportEvent e = false := by
  cases e <;> simp_all [dryRunOk, isExportEvent]

lemma export_image_no_message (orig dup : Nat) (dir name : String) :
    ∀ e ∈ export_image orig dup dir name, isMessage e = false := by
  intro e he
  simp only [export_image, List.mem_cons, List.not_mem_nil,
    or_false] at he
  rcases he with rfl | rfl | rfl | rfl <;> rfl

lemma player_loop_no_message (oF : String) (t : Team)
    (ps : List String) : ∀ (fresh f2 : Nat) (evs : List Ev),
      player_loop oF t ps fresh = some (f2, evs) →
      ∀ e ∈ evs, isMessage e = false := by
  induction ps with
  | nil =>
      intro fresh f2 evs h e he
      simp only [player_loop, Option.some.injEq, Prod.mk.injEq] at h
      rw [← h.2] at he
      simp at he
  | cons p rest ih =>
      intro fresh f2 evs h e he
      unfold player_loop at h
      cases hm : get_teammates t.players (some p) with
      | none => rw [hm] at h; simp at h
      | some mates =>
          rw [hm] at h
          cases hp : player_loop oF t rest (fresh + 1) with
          | none => rw [hp] at h; simp at h
          | some pr =>
              obtain ⟨f3, evs3⟩ := pr
              rw [hp] at h
              simp only [Option.some.injEq, Prod.mk.injEq] at h
              rw [← h.2] at he
              simp only [List.mem_cons, List.mem_append] at he
              rcases he with rfl | rfl | rfl | he | he
              · rfl
              · rfl
              · rfl
              · exact export_image_no_message _ _ _ _ e he
              · exact ih _ _ _ hp e he

lemma process_team_no_message (tmpl : List String) (oF tF : String)
    (ex : Bool) (t : Team) (log : List String) (fresh : Nat)
    (log1 : List String) (f1 : Nat) (evs : List Ev)
    (h : process_team tmpl oF tF ex t log fresh = some (log1, f1, evs)) :
    ∀ e ∈ evs, isMessage e = false := by
  intro e he
  unfold process_team at h
  cases ex with
  | false =>
      simp only [Bool.not_false] at h
      rw [if_pos trivial] at h
      simp only [Option.some.injEq, Prod.mk.injEq] at h
      rw [← h.2.2] at he
      rcases List.mem_append.mp he with he1 | he2
      · exact dryRunOk_not_message e
          (set_signatures_active_dryOk tmpl t true log e he1)
      · exact dryRunOk_not_message e
          (set_signatures_active_dryOk tmpl t false _ e he2)
  | true =>
      simp only [Bool.not_true] at h
      rw [if_neg (by simp)] at h
      cases hm : get_teammates t.players none with
      | none => rw [hm] at h; simp at h
      | some matesAll =>
          rw [hm] at h
          cases hp : player_loop oF t t.players (fresh + 1) with
          | none => rw [hp] at h; simp at h
          | some pr =>
              obtain ⟨f3, pEvs⟩ := pr
              rw [hp] at h
              simp only [Option.some.injEq, Prod.mk.injEq] at h
              rw [← h.2.2] at he
              simp only [List.mem_append, List.mem_cons] at he
              rcases he with ((he1 | he2) | he3) | he4
              · exact dryRunOk_not_message e
                  (set_signatures_active_dryOk tmpl t true log e he1)
              · rcases he2 with rfl | rfl | rfl | rfl | rfl | rfl | rfl |
                  rfl | rfl | rfl | he2'
                · rfl
                · rfl
                · rfl
                · rfl
                · rfl
                · rfl
                · rfl
                · rfl
                · rfl
                · rfl
                · exact export_image_no_message _ _ _ _ e he2'
              · rcases he3 with rfl | rfl | rfl | rfl | rfl | he3'
                · rfl
                · rfl
                · rfl
                · rfl
                · rfl
                · exact player_loop_no_message oF t t.players _ _ _ hp e he3'
              · exact dryRunOk_not_message e
                  (set_signatures_active_dryOk tmpl t false _ e he4)

lemma process_team_fst (tmpl : List String) (oF tF : String) (ex : Bool)
    (t : Team) (log : List String) (fresh : Nat) (log1 : List String)
    (f1 : Nat) (evs : List Ev)
    (h : process_team tmpl oF tF ex t log fresh = some (log1, f1, evs)) :
    log1 = log ++ missingOf tmpl t := by
  unfold process_team at h
  cases ex with
  | false =>
      simp only [Bool.not_false] at h
      rw [if_pos trivial] at h
      simp only [Option.some.injEq, Prod.mk.injEq] at h
      rw [← h.1, set_signatures_active_fst_false,
        set_signatures_active_fst_true]
  | true =>
      simp only [Bool.not_true] at h
      rw [if_neg (by simp)] at h
      cases hm : get_teammates t.players none with
      | none => rw [hm] at h; simp at h
      | some matesAll =>
          rw [hm] at h
          cases hp : player_loop oF t t.players (fresh + 1) with
          | none => rw [hp] at h; simp at h
          | some pr =>
              obtain ⟨f3, pEvs⟩ := pr
              rw [hp] at h
              simp only [Option.some.injEq, Prod.mk.injEq] at h
              rw [← h.1, set_signatures_active_fst_false,
                set_signatures_active_fst_true]

lemma teams_loop_cons (tmpl : List String) (oF tF r : String) (ex : Bool)
    (t : Team) (rest : List Team) (log : List String) (fresh : Nat) :
    teams_loop tmpl oF tF r ex (t :: rest) log fresh =
      if r ≠ "" ∧ r ≠ t.name then
        teams_loop tmpl oF tF r ex rest log fresh
      else
        match process_team tmpl oF tF ex t log fresh with
        | none => none
        | some (log1, fresh1, evs1) =>
          match teams_loop tmpl oF tF r ex rest log1 fresh1 with
          | none => none
          | some (log2, fresh2, evs2) =>
            some (log2, fresh2, evs1 ++ evs2) := rfl

lemma teams_loop_log_extends (tmpl : List String) (oF tF r : String)
    (ex : Bool) (ts : List Team) : ∀ (log : List String) (fresh : Nat)
    (log2 : List String) (f2 : Nat) (evs2 : List Ev),
    teams_loop tmpl oF tF r ex ts log fresh = some (log2, f2, evs2) →
      ∃ g, log2 = log ++ g := by
  induction ts with
  | nil =>
      intro log fresh l f ev h
      simp only [teams_loop, Option.some.injEq, Prod.mk.injEq] at h
      exact ⟨[], by rw [← h.1]; simp⟩
  | cons t rest ih =>
      intro log fresh l f ev h
      rw [teams_loop_cons] at h
      by_cases hskip : r ≠ "" ∧ r ≠ t.name
      · rw [if_pos hskip] at h
        exact ih _ _ _ _ _ h
      · rw [if_neg hskip] at h
        cases hp : process_team tmpl oF tF ex t log fresh with
        | none => rw [hp] at h; simp at h
        | some trip =>
            obtain ⟨l1, f1, e1⟩ := trip
            rw [hp] at h
            dsimp only at h
            cases hq : teams_loop tmpl oF tF r ex rest l1 f1 with
            | none => rw [hq] at h; simp at h
            | some trip2 =>
                obtain ⟨l2, f2x, e2⟩ := trip2
                rw [hq] at h
                simp only [Option.some.injEq, Prod.mk.injEq] at h
                obtain ⟨g2, hg2⟩ := ih _ _ _ _ _ hq
                refine ⟨missingOf tmpl t ++ g2, ?_⟩
                rw [← h.1, hg2, process_team_fst _ _ _ _ _ _ _ _ _ _ hp,
                  List.append_assoc]

lemma teams_loop_no_message (tmpl : List String) (oF tF r : String)
    (ex : Bool) (ts : List Team) : ∀ (log : List String) (fresh : Nat)
    (log2 : List String) (f2 : Nat) (evs2 : List Ev),
    teams_loop tmpl oF tF r ex ts log fresh = some (log2, f2, evs2) →
      ∀ e ∈ evs2, isMessage e = false := by
  induction ts with
  | nil =>
      intro log fresh l f ev h e he
      simp only [teams_loop, Option.some.injEq, Prod.mk.injEq] at h
      rw [← h.2.2] at he
      simp at he
  | cons t rest ih =>
      intro log fresh l f ev h e he
      rw [teams_loop_cons] at h
      by_cases hskip : r ≠ "" ∧ r ≠ t.name
      · rw [if_pos hskip] at h
        exact ih _ _ _ _ _ h e he
      · rw [if_neg hskip] at h
        cases hp : process_team tmpl oF tF ex t log fresh with
        | none => rw [hp] at h; simp at h
        | some trip =>
            obtain ⟨l1, f1, e1⟩ := trip
            rw [hp] at h
            dsimp only at h
            cases hq : teams_loop tmpl oF tF r ex rest l1 f1 with
            | none => rw [hq] at h; simp at h
            | some trip2 =>
                obtain ⟨l2, f2x, e2⟩ := trip2
                rw [hq] at h
                simp only [Option.some.injEq, Prod.mk.injEq] at h
                rw [← h.2.2] at he
                rcases List.mem_append.mp he with he1 | he2
                · exact process_team_no_message _ _ _ _ _ _ _ _ _ _ hp e he1
                · exact ih _ _ _ _ _ hq e he2

/-- C3 amended: during a run the missing-signature log only grows; an
activating signature pass appends exactly the occurrences of the
non-empty missing mentor names of its team, in order — one entry per
occurrence in the mentor list (a name listed as both coach and manager
is logged twice), not once per distinct name — a deactivating pass
appends nothing; and after all teams are processed the accumulated log
is reported to the user exactly once, as the single message of the
trace, after every other event. -/
theorem claim_C3_missing_log (tmpl : List String) (oF tF r : String)
    (ex : Bool) (ts : List Team) (log0 log : List String) (tr : List Ev)
    (hrun : save_grad_certificates tmpl oF tF r ex ts log0 =
      some (log, tr)) :
    (∀ (t : Team) (lg : List String),
      (set_signatures_active tmpl t true lg).1 = lg ++ missingOf tmpl t ∧
      (set_signatures_active tmpl t false lg).1 = lg) ∧
    (∃ growth, log = log0 ++ growth) ∧
    (∃ body, tr = body ++
        [Ev.message ("Missing Signatures from " ++ pyStrList log),
         Ev.undoEnd, Ev.progressEnd] ∧
      ∀ e ∈ body, isMessage e = false) := by
  unfold save_grad_certificates at hrun
  cases hq : teams_loop tmpl oF tF r ex ts log0 1 with
  | none => rw [hq] at hrun; simp at hrun
  | some trip =>
      obtain ⟨lg1, f1, evs⟩ := trip
      rw [hq] at hrun
      simp only [Option.some.injEq, Prod.mk.injEq] at hrun
      obtain ⟨hlog, htr⟩ := hrun
      subst hlog
      subst htr
      refine ⟨fun t lg => ⟨set_signatures_active_fst_true tmpl t lg,
        set_signatures_active_fst_false tmpl t lg⟩,
        teams_loop_log_extends tmpl oF tF r ex ts _ _ _ _ _ hq, ?_⟩
      refine ⟨[Ev.progressInit, Ev.undoStart,
        Ev.findLayer "main_name" (tmpl.contains "main_name"),
        Ev.findLayer "main_team" (tmpl.contains "main_team"),
        Ev.findLayer "main_mates" (tmpl.contains "main_mates"),
        Ev.findLayer "text_team" (tmpl.contains "text_team"),
        Ev.findLayer "text_mates" (tmpl.contains "text_mates"),
        Ev.findLayer "main_award" (tmpl.contains "main_award"),
        Ev.findLayer "text_roster" (tmpl.contains "text_roster")] ++ evs,
        rfl, ?_⟩
      intro e he
      rcases List.mem_append.mp he with he1 | he2
      · simp only [List.mem_cons, List.not_mem_nil, or_false] at he1
        rcases he1 with rfl | rfl | rfl | rfl | rfl | rfl | rfl | rfl | rfl
          <;> rfl
      · exact teams_loop_no_message tmpl oF tF r ex ts _ _ _ _ _ hq e he2

/-- C3 amended witness: a dry run over one team with one missing mentor:
the run succeeds, the log grows from [], and the trace ends in the
single missing-signature message. -/
theorem claim_C3_missing_log_witness :
    ∃ log tr, save_grad_certificates [] "o" "t" "" false
        [{ name := "T", players := ["A"], mentors := ["X"],
           shared_responsibility := false, mult_coaches := false,
           mult_managers := false }] [] = some (log, tr) ∧
      (∃ growth, log = [] ++ growth) ∧
      (∃ body, tr = body ++
          [Ev.message ("Missing Signatures from " ++ pyStrList log),
           Ev.undoEnd, Ev.progressEnd] ∧
        ∀ e ∈ body, isMessage e = false) := by
  cases hrun : save_grad_certificates [] "o" "t" "" false
      [{ name := "T", players := ["A"], mentors := ["X"],
         shared_responsibility := false, mult_coaches := false,
         mult_managers := false }] [] with
  | none => exact absurd hrun (by decide)
  | some pr =>
      obtain ⟨log, tr⟩ := pr
      have h := claim_C3_missing_log [] "o" "t" "" false _ [] log tr hrun
      exact ⟨log, tr, rfl, h.2.1, h.2.2⟩

lemma teams_loop_dry (tmpl : List String) (oF tF r : String)
    (ts : List Team) : ∀ (log : List String) (fresh : Nat),
    ∃ (log2 : List String) (evs : List Ev),
      teams_loop tmpl oF tF r false ts log fresh =
        some (log2, fresh, evs) ∧
      (∀ e ∈ evs, dryRunOk e = true) ∧
      (∀ t2 ∈ ts, (r = "" ∨ r = t2.name) →
        (∀ m ∈ t2.mentors, m ≠ "" →
          Ev.findLayer m (tmpl.contains m) ∈ evs) ∧
        (∀ m ∈ t2.mentors, m ≠ "" → tmpl.contains m = false →
          m ∈ log2)) := by
  induction ts with
  | nil =>
      intro log fresh
      exact ⟨log, [], rfl, by simp, by simp⟩
  | cons t rest ih =>
      intro log fresh
      by_cases hskip : r ≠ "" ∧ r ≠ t.name
      · obtain ⟨log2, evs, hrun, hdry, hteams⟩ := ih log fresh
        refine ⟨log2, evs, ?_, hdry, ?_⟩
        · rw [teams_loop_cons, if_pos hskip]
          exact hrun
        · intro t2 ht2 hproc
          rcases List.mem_cons.mp ht2 with rfl | htl
          · rcases hproc with h0 | h0
            · exact absurd h0 hskip.1
            · exact absurd h0 hskip.2
          · exact hteams t2 htl hproc
      · have hpt : process_team tmpl oF tF false t log fresh =
            some ((set_signatures_active tmpl t false
                    (set_signatures_active tmpl t true log).1).1, fresh,
                  (set_signatures_active tmpl t true log).2 ++
                  (set_signatures_active tmpl t false
                    (set_signatures_active tmpl t true log).1).2) := rfl
        obtain ⟨log2, evs, hrun, hdry, hteams⟩ :=
          ih ((set_signatures_active tmpl t false
            (set_signatures_active tmpl t true log).1).1) fresh
        refine ⟨log2,
          ((set_signatures_active tmpl t true log).2 ++
           (set_signatures_active tmpl t false
             (set_signatures_active tmpl t true log).1).2) ++ evs,
          ?_, ?_, ?_⟩
        · rw [teams_loop_cons, if_neg hskip, hpt]
          dsimp only
          rw [hrun]
        · intro e he
          rcases List.mem_append.mp he with he1 | he2
          · rcases List.mem_append.mp he1 with he3 | he4
            · exact set_signatures_active_dryOk tmpl t true log e he3
            · exact set_signatures_active_dryOk tmpl t false _ e he4
          · exact hdry e he2
        · intro t2 ht2 hproc
          rcases List.mem_cons.mp ht2 with rfl | htl
          · constructor
            · intro m hm hne
              refine List.mem_append.mpr (Or.inl
                (List.mem_append.mpr (Or.inl ?_)))
              exact set_signatures_active_findLayer_mem tmpl t2 true log m
                hm hne
            · intro m hm hne hmiss
              have hmem1 : m ∈ (set_signatures_active tmpl t2 false
                  (set_signatures_active tmpl t2 true log).1).1 := by
                rw [set_signatures_active_fst_false,
                  set_signatures_active_fst_true]
                refine List.mem_append.mpr (Or.inr ?_)
                rw [missingOf, List.mem_filter]
                have hnotmem : m ∉ tmpl := by simpa using hmiss
                exact ⟨hm, by simp [hne, hnotmem]⟩
              obtain ⟨g, hg⟩ := teams_loop_log_extends tmpl oF tF r false
                rest _ _ _ _ _ hrun
              rw [hg]
              exact List.mem_append.mpr (Or.inl hmem1)
          · obtain ⟨hfind, hlog⟩ := hteams t2 htl hproc
            exact ⟨fun m hm hne =>
              List.mem_append.mpr (Or.inr (hfind m hm hne)), hlog⟩

/-- C7: with export disabled the run succeeds, its trace contains no
duplicate/merge/save/delete event and no setText other than the
signature labels on "main_coach"/"main_manager", yet for every processed
team every non-empty mentor name is still looked up against the template
and every missing one is recorded in the final log. -/
theorem claim_C7_dry_run (tmpl : List String) (oF tF r : String)
    (ts : List Team) (log0 : List String) :
    ∃ (log : List String) (tr : List Ev),
      save_grad_certificates tmpl oF tF r false ts log0 =
        some (log, tr) ∧
      (∀ e ∈ tr, isExportEvent e = false) ∧
      (∀ nm txt, Ev.setText nm txt ∈ tr →
        nm = "main_coach" ∨ nm = "main_manager") ∧
      (∀ t ∈ ts, (r = "" ∨ r = t.name) →
        (∀ m ∈ t.mentors, m ≠ "" →
          Ev.findLayer m (tmpl.contains m) ∈ tr) ∧
        (∀ m ∈ t.mentors, m ≠ "" → tmpl.contains m = false →
          m ∈ log)) := by
  obtain ⟨log2, evs, hrun, hdry, hteams⟩ :=
    teams_loop_dry tmpl oF tF r ts log0 1
  refine ⟨log2,
    ([Ev.progressInit, Ev.undoStart,
      Ev.findLayer "main_name" (tmpl.contains "main_name"),
      Ev.findLayer "main_team" (tmpl.contains "main_team"),
      Ev.findLayer "main_mates" (tmpl.contains "main_mates"),
      Ev.findLayer "text_team" (tmpl.contains "text_team"),
      Ev.findLayer "text_mates" (tmpl.contains "text_mates"),
      Ev.findLayer "main_award" (tmpl.contains "main_award"),
      Ev.findLayer "text_roster" (tmpl.contains "text_roster")] ++ evs) ++
    [Ev.message ("Missing Signatures from " ++ pyStrList log2),
     Ev.undoEnd, Ev.progressEnd], ?_, ?_, ?_, ?_⟩
  · unfold save_grad_certificates
    rw [hrun]
  · intro e he
    rcases List.mem_append.mp he with he1 | he2
    · rcases List.mem_append.mp he1 with he3 | he4
      · simp only [List.mem_cons, List.not_mem_nil, or_false] at he3
        rcases he3 with rfl | rfl | rfl | rfl | rfl | rfl | rfl | rfl | rfl
          <;> rfl
      · exact dryRunOk_not_export e (hdry e he4)
    · simp only [List.mem_cons, List.not_mem_nil, or_false] at he2
      rcases he2 with rfl | rfl | rfl <;> rfl
  · intro nm txt he
    rcases List.mem_append.mp he with he1 | he2
    · rcases List.mem_append.mp he1 with he3 | he4
      · simp only [List.mem_cons, List.not_mem_nil, or_false] at he3
        rcases he3 with h | h | h | h | h | h | h | h | h <;> simp at h
      · have hok := hdry _ he4
        simp only [dryRunOk, Bool.or_eq_true, beq_iff_eq] at hok
        exact hok
    · simp only [List.mem_cons, List.not_mem_nil, or_false] at he2
      rcases he2 with h | h | h <;> simp at h
  · intro t ht hproc
    obtain ⟨hfind, hlog⟩ := hteams t ht hproc
    exact ⟨fun m hm hne => List.mem_append.mpr (Or.inl
      (List.mem_append.mpr (Or.inr (hfind m hm hne)))), hlog⟩

/-- C7 witness: a dry run over one team with mentors ["X", ""]: the
export-free and setText-restricted trace still contains the lookup of
"X", and "X" lands in the final log. -/
theorem claim_C7_dry_run_witness :
    ∃ (log : List String) (tr : List Ev),
      save_grad_certificates [] "o" "t" "" false
        [{ name := "T", players := ["A"], mentors := ["X", ""],
           shared_responsibility := false, mult_coaches := false,
           mult_managers := false }] [] = some (log, tr) ∧
      (∀ e ∈ tr, isExportEvent e = false) ∧
      Ev.findLayer "X" (List.contains [] "X") ∈ tr ∧ "X" ∈ log := by
  obtain ⟨log, tr, hrun, hex, htxt, hteams⟩ :=
    claim_C7_dry_run [] "o" "t" ""
      [{ name := "T", players := ["A"], mentors := ["X", ""],
         shared_responsibility := false, mult_coaches := false,
         mult_managers := false }] []
  obtain ⟨hfind, hmiss⟩ := hteams
    { name := "T", players := ["A"], mentors := ["X", ""],
      shared_responsibility := false, mult_coaches := false,
      mult_managers := false } (by simp) (Or.inl rfl)
  exact ⟨log, tr, hrun, hex, hfind "X" (by simp) (by decide),
    hmiss "X" (by simp) (by decide) (by decide)⟩

lemma teams_loop_restrict (tmpl : List String) (oF tF r : String)
    (ex : Bool) (hr : r ≠ "") (ts : List Team) :
    ∀ (log : List String) (fresh : Nat),
      teams_loop tmpl oF tF r ex ts log fresh =
        teams_loop tmpl oF tF "" ex
          (ts.filter (fun t2 => t2.name == r)) log fresh := by
  induction ts with
  | nil => intro log fresh; rfl
  | cons t rest ih =>
      intro log fresh
      by_cases hname : t.name = r
      · have hfil : (t :: rest).filter (fun t2 => t2.name == r) =
            t :: rest.filter (fun t2 => t2.name == r) := by
          simp [List.filter_cons, hname]
        rw [hfil, teams_loop_cons, teams_loop_cons]
        rw [if_neg (fun hc => hc.2 hname.symm), if_neg (by simp)]
        cases hp : process_team tmpl oF tF ex t log fresh with
        | none => rfl
        | some trip =>
            obtain ⟨l1, f1, e1⟩ := trip
            dsimp only
            rw [ih l1 f1]
      · have hfil : (t :: rest).filter (fun t2 => t2.name == r) =
            rest.filter (fun t2 => t2.name == r) := by
          simp [List.filter_cons, hname]
        rw [hfil, teams_loop_cons,
          if_pos ⟨hr, fun h => hname h.symm⟩]
        exact ih log fresh

/-- C8: with a non-empty restriction string the run is exactly the
unrestricted run over only the name-matching teams: every other team
contributes nothing at all (no signature pass, no log entry, no text
setting, no export), and the matching teams are processed in full. -/
theorem claim_C8_restriction (tmpl : List String) (oF tF r : String)
    (ex : Bool) (ts : List Team) (log0 : List String) (hr : r ≠ "") :
    save_grad_certificates tmpl oF tF r ex ts log0 =
      save_grad_certificates tmpl oF tF "" ex
        (ts.filter (fun t2 => t2.name == r)) log0 := by
  unfold save_grad_certificates
  rw [teams_loop_restrict tmpl oF tF r ex hr ts log0 1]

/-- C8 witness: restricting a two-team dry run to "Hawks" equals the
unrestricted run over the Hawks alone. -/
theorem claim_C8_restriction_witness :
    ("Hawks" : String) ≠ "" ∧
    save_grad_certificates [] "o" "t" "Hawks" false
        [{ name := "Hawks", players := ["A"], mentors := ["X"],
           shared_responsibility := false, mult_coaches := false,
           mult_managers := false },
         { name := "Owls", players := ["B"], mentors := ["Y"],
           shared_responsibility := false, mult_coaches := false,
           mult_managers := false }] [] =
      save_grad_certificates [] "o" "t" "" false
        ([{ name := "Hawks", players := ["A"], mentors := ["X"],
            shared_responsibility := false, mult_coaches := false,
            mult_managers := false },
          { name := "Owls", players := ["B"], mentors := ["Y"],
            shared_responsibility := false, mult_coaches := false,
            mult_managers := false }].filter
          (fun t2 => t2.name == "Hawks")) [] :=
  ⟨by decide, claim_C8_restriction [] "o" "t" "Hawks" false
    [{ name := "Hawks", players := ["A"], mentors := ["X"],
       shared_responsibility := false, mult_coaches := false,
       mult_managers := false },
     { name := "Owls", players := ["B"], mentors := ["Y"],
       shared_responsibility := false, mult_coaches := false,
       mult_managers := false }] [] (by decide)⟩
